import Mathlib

/-!
Verification development for the epsagon-cloudflare worker tracer.

The JavaScript sources are embedded shallowly:

* JavaScript objects become ordered key/value lists whose writes follow
  the `obj[key] = value` semantics (update in place, append when fresh);
  `Object.assign` is a fold of such writes.
* `Span` / `RequestTracer` (tracer module) become a tree-shaped inductive
  with explicit state passing; `Date.now()` becomes an explicit `now`
  argument.
* `PromiseSettledCoordinator` (wrapper module) becomes a small labelled
  transition system whose events are task registration, task settlement,
  and the asynchronous continuation of one `Promise.allSettled` join.
-/

set_option linter.unusedVariables false

/-- A JavaScript runtime value, as far as the tracer stores one in span data. -/
inductive JsVal where
  | undef
  | boolean (b : Bool)
  | num (q : ℚ)
  | str (s : String)
  | obj (fields : List (String × JsVal))

/-- A JavaScript object: ordered key/value pairs; all objects built by the
embedding keep their keys unique because every write goes through `jsSet`. -/
abbrev JsObj := List (String × JsVal)

/-- JS property write `m[k] = v`: update the existing entry in place when the
key is present, append a fresh entry otherwise. -/
def jsSet {α : Type} (m : List (String × α)) (k : String) (v : α) : List (String × α) :=
  if m.any (fun p => p.1 == k) then
    m.map (fun p => if p.1 == k then (k, v) else p)
  else
    m ++ [(k, v)]

/-- Value of the last write to key `k` in a pair list, if any. -/
def jsLast {α : Type} : List (String × α) → String → Option α
  | [], _ => none
  | p :: rest, k =>
    match jsLast rest k with
    | some v => some v
    | none => if p.1 == k then some p.2 else none

/-- JS `Object.assign(m, src)`: fold every source entry into the target. -/
def jsAssign {α : Type} (m src : List (String × α)) : List (String × α) :=
  src.foldl (fun acc p => jsSet acc p.1 p.2) m

/-- JS property read `m[k]`: `undefined` when the key was never written. -/
def jsAccess (m : JsObj) (k : String) : JsVal :=
  (jsLast m k).getD .undef


theorem jsLast_cons {α : Type} (p : String × α) (rest : List (String × α)) (k : String) :
    jsLast (p :: rest) k =
      match jsLast rest k with
      | some v => some v
      | none => if p.1 == k then some p.2 else none := rfl

theorem jsLast_cons_of_some {α : Type} {p : String × α} {rest : List (String × α)}
    {k : String} {v : α} (h : jsLast rest k = some v) : jsLast (p :: rest) k = some v := by
  rw [jsLast_cons, h]

theorem jsLast_cons_of_none {α : Type} {p : String × α} {rest : List (String × α)}
    {k : String} (h : jsLast rest k = none) :
    jsLast (p :: rest) k = if p.1 == k then some p.2 else none := by
  rw [jsLast_cons, h]

theorem jsLast_append_of_some {α : Type} {b : List (String × α)} {k : String} {v : α}
    (a : List (String × α)) (h : jsLast b k = some v) : jsLast (a ++ b) k = some v := by
  induction a with
  | nil => simpa using h
  | cons p rest ih => exact jsLast_cons_of_some ih

theorem jsLast_append_of_none {α : Type} {b : List (String × α)} {k : String}
    (a : List (String × α)) (h : jsLast b k = none) : jsLast (a ++ b) k = jsLast a k := by
  induction a with
  | nil => simpa using h
  | cons p rest ih =>
    rw [List.cons_append, jsLast_cons, ih, jsLast_cons]

theorem jsLast_none_of_any_false {α : Type} (m : List (String × α)) (k : String)
    (h : m.any (fun p => p.1 == k) = false) : jsLast m k = none := by
  induction m with
  | nil => rfl
  | cons p rest ih =>
    simp only [List.any_cons, Bool.or_eq_false_iff] at h
    rw [jsLast_cons, ih h.2, h.1]
    rfl

theorem any_map_jsSet {α : Type} (m : List (String × α)) (k k' : String) (v : α) :
    (m.map (fun p => if p.1 == k then (k, v) else p)).any (fun p => p.1 == k') =
      m.any (fun p => p.1 == k') := by
  induction m with
  | nil => rfl
  | cons p rest ih =>
    rw [List.map_cons, List.any_cons, List.any_cons, ih]
    by_cases hp : (p.1 == k) = true
    · have hk : p.1 = k := by simpa using hp
      rw [if_pos hp]
      rw [show (k, v).1 = p.1 from hk.symm]
    · rw [if_neg hp]

theorem jsLast_setmap_self {α : Type} (m : List (String × α)) (k : String) (v : α)
    (h : m.any (fun p => p.1 == k) = true) :
    jsLast (m.map (fun p => if p.1 == k then (k, v) else p)) k = some v := by
  induction m with
  | nil => simp at h
  | cons p rest ih =>
    rw [List.map_cons]
    by_cases hr : rest.any (fun p => p.1 == k) = true
    · exact jsLast_cons_of_some (ih hr)
    · have hrf : rest.any (fun p => p.1 == k) = false := Bool.eq_false_iff.mpr hr
      have hnone : jsLast (rest.map (fun p => if p.1 == k then (k, v) else p)) k = none :=
        jsLast_none_of_any_false _ _ (by rw [any_map_jsSet]; exact hrf)
      have hp : (p.1 == k) = true := by
        simp only [List.any_cons, Bool.or_eq_true] at h
        rcases h with h | h
        · exact h
        · exact absurd h hr
      rw [jsLast_cons_of_none hnone, if_pos hp, if_pos (by simp : ((k, v).1 == k) = true)]

theorem jsLast_setmap_ne {α : Type} (m : List (String × α)) (k k' : String) (v : α)
    (h : ¬ k' = k) :
    jsLast (m.map (fun p => if p.1 == k then (k, v) else p)) k' = jsLast m k' := by
  induction m with
  | nil => rfl
  | cons p rest ih =>
    by_cases hp : (p.1 == k) = true
    · have hk : p.1 = k := by simpa using hp
      have h1 : ((k, v).1 == k') = false := by
        simp only [beq_eq_false_iff_ne, ne_eq]
        exact fun hkk => h hkk.symm
      have h2 : (p.1 == k') = false := by rw [hk]; exact h1
      rw [List.map_cons, jsLast_cons, ih, jsLast_cons, if_pos hp]
      cases jsLast rest k' <;> simp [h1, h2]
    · rw [List.map_cons, jsLast_cons, ih, jsLast_cons, if_neg hp]

theorem jsLast_jsSet_self {α : Type} (m : List (String × α)) (k : String) (v : α) :
    jsLast (jsSet m k v) k = some v := by
  unfold jsSet
  by_cases h : m.any (fun p => p.1 == k) = true
  · rw [if_pos h]
    exact jsLast_setmap_self m k v h
  · rw [if_neg h]
    exact jsLast_append_of_some m (by simp [jsLast])

theorem jsLast_jsSet_ne {α : Type} (m : List (String × α)) (k k' : String) (v : α)
    (h : ¬ k' = k) : jsLast (jsSet m k v) k' = jsLast m k' := by
  unfold jsSet
  by_cases hm : m.any (fun p => p.1 == k) = true
  · rw [if_pos hm]
    exact jsLast_setmap_ne m k k' v h
  · rw [if_neg hm]
    have hkk : (k == k') = false := by
      simp only [beq_eq_false_iff_ne, ne_eq]
      exact fun hkk => h hkk.symm
    have hone : jsLast [(k, v)] k' = none := by
      have he : jsLast [(k, v)] k' = if (k == k') = true then some v else none := rfl
      rw [he, hkk]
      simp
    exact jsLast_append_of_none m hone

theorem jsLast_assign_of_none {α : Type} {src : List (String × α)} {k : String}
    (m : List (String × α)) (h : jsLast src k = none) :
    jsLast (jsAssign m src) k = jsLast m k := by
  induction src generalizing m with
  | nil => rfl
  | cons p rest ih =>
    rw [jsLast_cons] at h
    have hr : jsLast rest k = none := by
      cases hx : jsLast rest k with
      | none => rfl
      | some w => rw [hx] at h; exact absurd h (by simp)
    rw [hr] at h
    have h2 : (if (p.1 == k) = true then some p.2 else none) = none := h
    have hp : ¬ k = p.1 := by
      intro hk
      rw [if_pos (by simp [hk])] at h2
      exact absurd h2 (by simp)
    show jsLast (jsAssign (jsSet m p.1 p.2) rest) k = jsLast m k
    rw [ih (jsSet m p.1 p.2) hr]
    exact jsLast_jsSet_ne m p.1 k p.2 hp

theorem jsLast_assign_of_some {α : Type} {src : List (String × α)} {k : String} {v : α}
    (m : List (String × α)) (h : jsLast src k = some v) :
    jsLast (jsAssign m src) k = some v := by
  induction src generalizing m with
  | nil => simp [jsLast] at h
  | cons p rest ih =>
    show jsLast (jsAssign (jsSet m p.1 p.2) rest) k = some v
    cases hr : jsLast rest k with
    | some w =>
      have : w = v := by
        have := jsLast_cons_of_some (p := p) hr
        rw [this] at h
        exact Option.some.inj h
      exact ih (jsSet m p.1 p.2) (this ▸ hr)
    | none =>
      rw [jsLast_cons_of_none hr] at h
      have hp : (p.1 == k) = true := by
        by_cases hb : (p.1 == k) = true
        · exact hb
        · rw [if_neg hb] at h; exact absurd h (by simp)
      have hpv : some p.2 = some v := by rwa [if_pos hp] at h
      have hk : p.1 = k := by simpa using hp
      rw [jsLast_assign_of_none (jsSet m p.1 p.2) hr]
      have hs : jsLast (jsSet m p.1 p.2) k = some p.2 := by
        rw [← hk]
        exact jsLast_jsSet_self m p.1 p.2
      rw [hs]
      exact hpv

theorem jsAccess_assign_of_last {m src : JsObj} {k : String} {v : JsVal}
    (h : jsLast src k = some v) : jsAccess (jsAssign m src) k = v := by
  unfold jsAccess
  rw [jsLast_assign_of_some m h]
  rfl

theorem jsAccess_assign_of_none {m src : JsObj} {k : String}
    (h : jsLast src k = none) : jsAccess (jsAssign m src) k = jsAccess m k := by
  unfold jsAccess
  rw [jsLast_assign_of_none m h]

theorem char_toNat_ofNat (n : Nat) (h : n.isValidChar) : (Char.ofNat n).toNat = n := by
  unfold Char.ofNat
  rw [dif_pos h]
  unfold Char.ofNatAux Char.toNat
  simp [UInt32.toNat, BitVec.ofNatLt]

theorem char_toLower_eq (d : Char) :
    d.toLower = if d.toNat >= 65 ∧ d.toNat <= 90 then Char.ofNat (d.toNat + 32) else d := rfl

theorem char_toLower_idem (c : Char) : c.toLower.toLower = c.toLower := by
  by_cases h : c.toNat >= 65 ∧ c.toNat <= 90
  · have h1 : c.toLower = Char.ofNat (c.toNat + 32) := by rw [char_toLower_eq, if_pos h]
    have hv : (c.toNat + 32).isValidChar := Or.inl (by omega)
    have ht : (Char.ofNat (c.toNat + 32)).toNat = c.toNat + 32 := char_toNat_ofNat _ hv
    have h2 : ¬((Char.ofNat (c.toNat + 32)).toNat >= 65 ∧
        (Char.ofNat (c.toNat + 32)).toNat <= 90) := by
      rw [ht]
      omega
    rw [h1, char_toLower_eq, if_neg h2]
  · have h1 : c.toLower = c := by rw [char_toLower_eq, if_neg h]
    rw [h1, h1]

/-- JS `String.prototype.toLowerCase` as the tracer uses it on header names:
lower-case every character (basic latin case mapping). -/
def jsLowerString (s : String) : String := ⟨s.data.map Char.toLower⟩

theorem jsLowerString_idem (s : String) : jsLowerString (jsLowerString s) = jsLowerString s := by
  unfold jsLowerString
  rw [List.map_map]
  congr 1
  apply List.map_congr_left
  intro c hc
  exact char_toLower_idem c

/-- One step of the `convertHeaders` loop from the tracer module: lower-case
the header name and write either the redaction marker or the original value. -/
def convertHeadersStep (redacted : List String) (acc : List (String × String))
    (kv : String × String) : List (String × String) :=
  jsSet acc (jsLowerString kv.1)
    (if redacted.contains (jsLowerString kv.1) then "REDACTED" else kv.2)

/-- tracer `convertHeaders(from, redacted)`: iterate `from.entries()` in order,
building a fresh object with lower-cased keys, redacting listed names. -/
def convertHeaders (hdrs : List (String × String)) (redacted : List String) :
    List (String × String) :=
  hdrs.foldl (convertHeadersStep redacted) []

theorem jsSet_eq_append {α : Type} (m : List (String × α)) (k : String) (v : α)
    (h : m.any (fun p => p.1 == k) = false) : jsSet m k v = m ++ [(k, v)] := by
  unfold jsSet
  rw [if_neg (by rw [h]; simp)]

theorem any_key_eq_true_iff {α : Type} (m : List (String × α)) (k : String) :
    m.any (fun p => p.1 == k) = true ↔ k ∈ m.map Prod.fst := by
  rw [List.any_eq_true]
  constructor
  · rintro ⟨p, hp, hpk⟩
    exact List.mem_map.mpr ⟨p, hp, by simpa using hpk⟩
  · rintro h
    obtain ⟨p, hp, hpk⟩ := List.mem_map.mp h
    exact ⟨p, hp, by simpa using hpk⟩

theorem keys_jsSet_of_mem {α : Type} (m : List (String × α)) (k : String) (v : α)
    (h : m.any (fun p => p.1 == k) = true) :
    (jsSet m k v).map Prod.fst = m.map Prod.fst := by
  unfold jsSet
  rw [if_pos h, List.map_map]
  apply List.map_congr_left
  intro p hp
  by_cases hpk : (p.1 == k) = true
  · have : p.1 = k := by simpa using hpk
    simp [Function.comp, hpk, this]
  · simp [Function.comp, hpk]

theorem mem_jsSet {α : Type} {m : List (String × α)} {k : String} {v : α}
    {p' : String × α} (h : p' ∈ jsSet m k v) :
    p' = (k, v) ∨ (p' ∈ m ∧ (p'.1 == k) = false) := by
  unfold jsSet at h
  by_cases hm : m.any (fun p => p.1 == k) = true
  · rw [if_pos hm] at h
    obtain ⟨p, hp, hfp⟩ := List.mem_map.mp h
    by_cases hpk : (p.1 == k) = true
    · left
      rw [← hfp, if_pos hpk]
    · right
      rw [← hfp, if_neg hpk]
      exact ⟨hp, Bool.eq_false_iff.mpr hpk⟩
  · rw [if_neg hm] at h
    rcases List.mem_append.mp h with h | h
    · right
      refine ⟨h, ?_⟩
      have hall := Bool.eq_false_iff.mpr hm
      rw [List.any_eq_false] at hall
      exact Bool.eq_false_iff.mpr (hall p' h)
    · left
      simpa using h

theorem keysNodup_jsSet {α : Type} (m : List (String × α)) (k : String) (v : α)
    (h : (m.map Prod.fst).Nodup) : ((jsSet m k v).map Prod.fst).Nodup := by
  by_cases hm : m.any (fun p => p.1 == k) = true
  · rw [keys_jsSet_of_mem m k v hm]
    exact h
  · rw [jsSet_eq_append m k v (Bool.eq_false_iff.mpr hm), List.map_append]
    rw [List.nodup_append]
    refine ⟨h, List.nodup_singleton k, ?_⟩
    intro x hx hx'
    have hxk : x = k := by simpa using hx'
    subst hxk
    exact hm ((any_key_eq_true_iff m x).mpr hx)

theorem mem_keys_jsSet_self {α : Type} (m : List (String × α)) (k : String) (v : α) :
    k ∈ (jsSet m k v).map Prod.fst := by
  by_cases hm : m.any (fun p => p.1 == k) = true
  · rw [keys_jsSet_of_mem m k v hm]
    exact (any_key_eq_true_iff m k).mp hm
  · rw [jsSet_eq_append m k v (Bool.eq_false_iff.mpr hm), List.map_append]
    simp

theorem mem_keys_jsSet_of_mem {α : Type} (m : List (String × α)) (k k' : String) (v : α)
    (h : k' ∈ m.map Prod.fst) : k' ∈ (jsSet m k v).map Prod.fst := by
  by_cases hm : m.any (fun p => p.1 == k) = true
  · rw [keys_jsSet_of_mem m k v hm]
    exact h
  · rw [jsSet_eq_append m k v (Bool.eq_false_iff.mpr hm), List.map_append]
    exact List.mem_append_left _ h

/-- Canonical shape of an object produced by `convertHeaders`: keys are
lower-cased, redacted keys hold the marker, keys are unique. -/
def HeadersCanon (redacted : List String) (m : List (String × String)) : Prop :=
  (∀ p ∈ m, jsLowerString p.1 = p.1 ∧
    (redacted.contains p.1 = true → p.2 = "REDACTED")) ∧
  (m.map Prod.fst).Nodup

theorem headersCanon_step (redacted : List String) (acc : List (String × String))
    (kv : String × String) (h : HeadersCanon redacted acc) :
    HeadersCanon redacted (convertHeadersStep redacted acc kv) := by
  obtain ⟨hvals, hnd⟩ := h
  constructor
  · intro p hp
    rcases mem_jsSet hp with hnew | ⟨hold, _⟩
    · subst hnew
      refine ⟨jsLowerString_idem kv.1, ?_⟩
      intro hc
      simp only
      rw [if_pos hc]
    · exact hvals p hold
  · exact keysNodup_jsSet acc (jsLowerString kv.1) _ hnd

theorem headersCanon_foldl (redacted : List String) (l : List (String × String)) :
    ∀ acc, HeadersCanon redacted acc →
      HeadersCanon redacted (l.foldl (convertHeadersStep redacted) acc) := by
  induction l with
  | nil => intro acc h; exact h
  | cons kv rest ih =>
    intro acc h
    exact ih _ (headersCanon_step redacted acc kv h)

theorem headersCanon_convertHeaders (hdrs : List (String × String))
    (redacted : List String) : HeadersCanon redacted (convertHeaders hdrs redacted) :=
  headersCanon_foldl redacted hdrs [] ⟨fun p hp => absurd hp (List.not_mem_nil p), List.nodup_nil⟩

theorem convertHeaders_foldl_stable (redacted : List String) (m : List (String × String)) :
    ∀ acc,
      (∀ p ∈ m, jsLowerString p.1 = p.1 ∧
        (redacted.contains p.1 = true → p.2 = "REDACTED")) →
      (((acc ++ m).map Prod.fst).Nodup) →
      m.foldl (convertHeadersStep redacted) acc = acc ++ m := by
  induction m with
  | nil => intro acc _ _; simp
  | cons kv rest ih =>
    intro acc hm hnd
    obtain ⟨hlow, hred⟩ := hm kv (List.mem_cons_self kv rest)
    have hstep : convertHeadersStep redacted acc kv = jsSet acc kv.1 kv.2 := by
      unfold convertHeadersStep
      rw [hlow]
      congr 1
      by_cases hc : redacted.contains kv.1 = true
      · rw [if_pos hc, hred hc]
      · rw [if_neg hc]
    have hknotin : kv.1 ∉ acc.map Prod.fst := by
      rw [List.map_append] at hnd
      intro hx
      have hdisj := (List.nodup_append.mp hnd).2.2
      exact hdisj hx (by simp)
    have happ : jsSet acc kv.1 kv.2 = acc ++ [kv] := by
      have : acc.any (fun p => p.1 == kv.1) = false := by
        rw [← Bool.not_eq_true]
        intro hc
        exact hknotin ((any_key_eq_true_iff acc kv.1).mp hc)
      rw [jsSet_eq_append acc kv.1 kv.2 this]
    rw [List.foldl_cons, hstep, happ]
    have hnd2 : (((acc ++ [kv]) ++ rest).map Prod.fst).Nodup := by
      rw [List.append_assoc, List.singleton_append]
      exact hnd
    rw [ih (acc ++ [kv]) (fun p hp => hm p (List.mem_cons_of_mem kv hp)) hnd2]
    rw [List.append_assoc, List.singleton_append]

theorem convertHeaders_idem (hdrs : List (String × String)) (redacted : List String) :
    convertHeaders (convertHeaders hdrs redacted) redacted = convertHeaders hdrs redacted := by
  obtain ⟨hvals, hnd⟩ := headersCanon_convertHeaders hdrs redacted
  have := convertHeaders_foldl_stable redacted (convertHeaders hdrs redacted) [] hvals
    (by simpa using hnd)
  simpa using this

theorem keys_mono_foldl (redacted : List String) (l : List (String × String)) :
    ∀ acc x, x ∈ acc.map Prod.fst →
      x ∈ (l.foldl (convertHeadersStep redacted) acc).map Prod.fst := by
  induction l with
  | nil => intro acc x h; exact h
  | cons kv rest ih =>
    intro acc x h
    exact ih _ x (mem_keys_jsSet_of_mem acc _ x _ h)

theorem convertHeaders_covers (hdrs : List (String × String)) (redacted : List String) :
    ∀ p ∈ hdrs, jsLowerString p.1 ∈ (convertHeaders hdrs redacted).map Prod.fst := by
  suffices hgen : ∀ l acc : List (String × String), ∀ p ∈ l,
      jsLowerString p.1 ∈ (l.foldl (convertHeadersStep redacted) acc).map Prod.fst by
    intro p hp
    exact hgen hdrs [] p hp
  intro l
  induction l with
  | nil => intro acc p hp; cases hp
  | cons kv rest ih =>
    intro acc p hp
    rcases List.mem_cons.mp hp with hp | hp
    · subst hp
      rw [List.foldl_cons]
      exact keys_mono_foldl redacted rest _ _
        (mem_keys_jsSet_self acc (jsLowerString p.1) _)
    · exact ih _ p hp

/-- The fields of the root span data that `getSampleRate` reads: only
`data.response` and, through it, `data.response.status`. -/
structure SampleResponse where
  status : Nat

/-- Projection of the tracer data seen by `getSampleRate`; `none` models a
`data.response` that was never captured (`undefined`). -/
structure SampleData where
  response : Option SampleResponse

/-- `config.sampleRates`: either a function of the outcome data or a table
keyed by strings such as "1xx".."5xx" and "exception"; a JS number is a
rational here and an absent entry is `none` (`undefined`). -/
inductive SampleRates where
  | func (f : SampleData → Option ℚ)
  | table (t : List (String × Option ℚ))

/-- Resolved tracer configuration (the wrapper module `resolve` output). -/
structure TracerConfig where
  acceptTraceContext : Bool
  token : String
  app_name : String
  data : JsObj
  redactRequestHeaders : List String
  redactResponseHeaders : List String
  sampleRates : SampleRates
  sendTraceContext : Bool
  serviceName : String
  debug : Bool

/-- User-supplied configuration: every recognized option may be absent. -/
structure UserConfig where
  acceptTraceContext : Option Bool := none
  token : Option String := none
  app_name : Option String := none
  data : Option JsObj := none
  redactRequestHeaders : Option (List String) := none
  redactResponseHeaders : Option (List String) := none
  sampleRates : Option SampleRates := none
  sendTraceContext : Option Bool := none
  serviceName : Option String := none
  debug : Option Bool := none

/-- Wrapper module `resolve(cfg)`: merge the defaults with the user options,
then lower-case both redact lists. -/
def resolve (cfg : UserConfig) : TracerConfig where
  acceptTraceContext := cfg.acceptTraceContext.getD false
  token := cfg.token.getD ""
  app_name := cfg.app_name.getD "cloudflare"
  data := cfg.data.getD []
  redactRequestHeaders :=
    (cfg.redactRequestHeaders.getD ["authorization", "cookie", "referer"]).map jsLowerString
  redactResponseHeaders :=
    (cfg.redactResponseHeaders.getD ["set-cookie"]).map jsLowerString
  sampleRates := cfg.sampleRates.getD (.func (fun _ => some 1))
  sendTraceContext := cfg.sendTraceContext.getD false
  serviceName := cfg.serviceName.getD "worker"
  debug := cfg.debug.getD false

/-- Key built from the response status: leading digit of the decimal status
followed by "xx". -/
def statusKey (status : Nat) : String := (toString status).take 1 ++ "xx"

/-- RequestTracer.getSampleRate. `sampleRate` is the explicit override set by
`setSampleRate` (absent unless called). A thrown TypeError is `Except.error`:
the source guard reads `data.response.status` while `data.response` is
`undefined` whenever no response was captured, because its two negated
conjuncts are joined by a logical and. The table lookup falls back to 1 when
the entry is absent or falsy. -/
def getSampleRate (sampleRate : Option ℚ) (ratesCfg : SampleRates) (data : SampleData) :
    Except String (Option ℚ) :=
  match sampleRate with
  | some r => .ok (some r)
  | none =>
    match ratesCfg with
    | .func f => .ok (f data)
    | .table t =>
      match data.response with
      | none => .error "TypeError: cannot read status of undefined"
      | some resp =>
        .ok (some (match jsLast t (statusKey resp.status) with
          | some (some v) => if v = 0 then 1 else v
          | some none => 1
          | none => 1))

/-- The emission guard in RequestTracer.sendEvents:
`sampleRate >= 1 && Math.random() < 1 / sampleRate`; an `undefined` rate
fails the first comparison. `rand` is the uniform draw from [0, 1). -/
def sendCondition (sampleRate : Option ℚ) (rand : ℚ) : Bool :=
  match sampleRate with
  | none => false
  | some s => decide (s ≥ 1) && decide (rand < 1 / s)

/-- The event filter in RequestTracer.sendEvents: drop every event whose
`name` is listed in `excludeSpans`; keep everything when the argument is
absent. -/
def filterEvents (events : List JsObj) (excludeSpans : Option (List String)) : List JsObj :=
  match excludeSpans with
  | none => events
  | some ex =>
    events.filter (fun ev =>
      !(match jsAccess ev "name" with
        | .str s => ex.contains s
        | _ => false))

/-- RequestTracer.sendEvents after the sample rate has been computed: the
batch send is attempted (with the filtered events) exactly when the guard
holds. -/
def sendEventsResult (events : List JsObj) (sampleRate : Option ℚ) (rand : ℚ)
    (excludeSpans : Option (List String)) : Option (List JsObj) :=
  if sendCondition sampleRate rand then some (filterEvents events excludeSpans) else none

/-- TraceWrapper.sendEvents: the excludes list handed to the tracer is empty
when the waitUntil extension point was used and otherwise names the
bookkeeping span. -/
def sendEventsExcludes (waitUntilUsed : Bool) : List String :=
  if waitUntilUsed then [] else ["waitUntil"]

/-- The `eventMeta` record of a span. `duration_ms` is only present after
`finish()` has run; `trace` carries the `init.trace_context` constructor
argument (absent, hence `undefined`, in every construction the sources make). -/
structure EventMeta where
  timestamp : ℚ
  name : String
  trace : JsVal
  service_name : String
  duration_ms : Option ℚ

/-- `eventMeta` as the JS object that `parseToEvents` assigns over the data. -/
def metaToObj (m : EventMeta) : JsObj :=
  [("timestamp", .num m.timestamp), ("name", .str m.name), ("trace", m.trace),
    ("service_name", .str m.service_name)] ++
  (match m.duration_ms with
   | none => []
   | some d => [("duration_ms", .num d)])

/-- A span: configuration, open data mapping, ordered child spans, metadata. -/
inductive Span where
  | mk (config : TracerConfig) (data : JsObj) (childSpans : List Span) (eventMeta : EventMeta)

def Span.config : Span → TracerConfig
  | .mk c _ _ _ => c

def Span.data : Span → JsObj
  | .mk _ d _ _ => d

def Span.childSpans : Span → List Span
  | .mk _ _ cs _ => cs

def Span.eventMeta : Span → EventMeta
  | .mk _ _ _ m => m

/-- The `init` argument of the `Span` constructor; `trace_context` defaults to
`undefined` exactly when the caller omits the field from the object literal. -/
structure SpanInit where
  name : String
  trace_context : JsVal := .undef
  service_name : String

/-- `new Span(init, config)`: empty data, no children, metadata stamped with
the construction time. -/
def Span.new (init : SpanInit) (config : TracerConfig) (now : ℚ) : Span :=
  .mk config [] []
    { timestamp := now, name := init.name, trace := init.trace_context,
      service_name := init.service_name, duration_ms := none }

/-- `Span.addData(data)`: `Object.assign(this.data, data)`. -/
def Span.addData (s : Span) (patch : JsObj) : Span :=
  .mk s.config (jsAssign s.data patch) s.childSpans s.eventMeta

/-- The fields of a host `Response` object that `addResponse` captures. -/
structure JsResponse where
  headers : List (String × String)
  ok : Bool
  redirected : Bool
  status : Nat
  statusText : String
  url : String

/-- `Span.addResponse(response, body)`: store the redacted projection of the
response under `data.response`; no response is a no-op. -/
def Span.addResponse (s : Span) (response : Option JsResponse) (body : JsVal) : Span :=
  match response with
  | none => s
  | some r =>
    s.addData [("response", .obj (
      [("headers", .obj ((convertHeaders r.headers s.config.redactResponseHeaders).map
          (fun p => (p.1, JsVal.str p.2)))),
       ("ok", .boolean r.ok), ("redirected", .boolean r.redirected),
       ("status", .num r.status), ("statusText", .str r.statusText),
       ("url", .str r.url), ("body", body)]))]

/-- `Span.start()`: re-stamp the start timestamp. -/
def Span.start (s : Span) (now : ℚ) : Span :=
  .mk s.config s.data s.childSpans { s.eventMeta with timestamp := now }

/-- `Span.finish()`: record the duration since the last start. -/
def Span.finish (s : Span) (now : ℚ) : Span :=
  .mk s.config s.data s.childSpans
    { s.eventMeta with duration_ms := some (now - s.eventMeta.timestamp) }

/-- `Span.startChildSpan(name, serviceName)` from the tracer module: create
the child, push it onto `childSpans`, return it (here: the updated parent and
the child). The source computes the parent trace context into a local
`trace` but does not pass it to the `Span` constructor, so the child's trace
context is the constructor default, `undefined`. An empty `serviceName` is
falsy in JS and also falls back to the parent's service name. -/
def Span.startChildSpan (s : Span) (name : String) (serviceName : Option String)
    (now : ℚ) : Span × Span :=
  let service_name :=
    match serviceName with
    | none => s.eventMeta.service_name
    | some sn => if sn = "" then s.eventMeta.service_name else sn
  let child := Span.new { name := name, service_name := service_name } s.config now
  (.mk s.config s.data (s.childSpans ++ [child]) s.eventMeta, child)

/-- The event object `parseToEvents` builds for one span:
`Object.assign(\x7b\x7d, this.data, this.eventMeta)`. -/
def Span.toEvent : Span → JsObj
  | .mk _ data _ meta => jsAssign (jsAssign [] data) (metaToObj meta)

mutual

/-- `Span.parseToEvents()`: this span's event followed by the flattened
events of the children in order (`childSpans.map(...).flat(1)`). -/
def Span.parseToEvents : Span → List JsObj
  | .mk config data children meta =>
    Span.toEvent (.mk config data children meta) :: parseChildEvents children

/-- Concatenation of the flattened events of a child list, in order. -/
def parseChildEvents : List Span → List JsObj
  | [] => []
  | c :: rest => Span.parseToEvents c ++ parseChildEvents rest

end

mutual

/-- Specification-side pre-order listing of span names ("one event per Span,
parent's event always precedes its descendants', children in creation
order"); compared against `parseToEvents` below. -/
def preorderNamesSpec : Span → List String
  | .mk _ _ children meta => meta.name :: preorderNamesListSpec children

/-- Pre-order name listing of a child list, in order. -/
def preorderNamesListSpec : List Span → List String
  | [] => []
  | c :: rest => preorderNamesSpec c ++ preorderNamesListSpec rest

end

/-- A thrown JS `Error` as the tracer reads it: `name`, `message`, `stack`
(possibly `undefined`). -/
structure JsError where
  name : String
  message : String
  stack : JsVal

/-- `Error.prototype.toString()`. -/
def jsErrorToString (e : JsError) : String :=
  if e.message = "" then e.name
  else if e.name = "" then e.message
  else e.name ++ ": " ++ e.message

/-- `RequestTracer.finishResponse(response, error, body)`: capture the
response when present, otherwise capture the error fields into the root data,
then finish the span. -/
def RequestTracer.finishResponse (s : Span) (response : Option JsResponse)
    (error : Option JsError) (body : JsVal) (now : ℚ) : Span :=
  let s2 :=
    match response with
    | some r => s.addResponse (some r) body
    | none =>
      match error with
      | some err =>
        s.addData [("exception", .boolean true), ("error_name", .str err.name),
          ("stack", err.stack), ("message", .str err.message),
          ("responseException", .str (jsErrorToString err))]
      | none => s
  s2.finish now

/-- The try/catch in `TraceWrapper.setUpRespondWith` around the user listener:
a synchronous throw is caught and routed into `finishResponse` with no
response; the error never escapes to the host (the wrapper is total in the
listener outcome). -/
def setUpRespondWith (tracer : Span) (listenerResult : Except JsError Unit) (now : ℚ) : Span :=
  match listenerResult with
  | .ok _ => tracer
  | .error err => RequestTracer.finishResponse tracer none (some err) .undef now

/-- JS truthiness for the values the tracer stores. -/
def jsTruthy : JsVal → Bool
  | .undef => false
  | .boolean b => b
  | .num q => decide (q ≠ 0)
  | .str s => decide (s ≠ "")
  | .obj _ => true

/-- The runner-trace exception branch of `RequestTracer.sendBatch`: when the
root event carries a truthy `exception`, the runner exception record is
filled from the root event fields and `error_code` is 2; otherwise the record
is empty and `error_code` is 0. -/
def runnerTraceException (event0 : JsObj) : JsObj × Nat :=
  if jsTruthy (jsAccess event0 "exception") then
    ([("type", jsAccess event0 "error_name"), ("tracebook", jsAccess event0 "stack"),
      ("additional_data", .obj [("warning", .boolean false), ("handled", .boolean false)]),
      ("message", jsAccess event0 "message")], 2)
  else ([], 0)

/-- State of a `PromiseSettledCoordinator`: one settled flag per registered
promise (in registration order), the `allSettled` flag, the snapshots
(`currentLength`) of the `Promise.allSettled` joins whose `.then` callback
has not yet run, and how many times `finished` has been invoked. -/
structure CoordState where
  promises : List Bool
  allSettled : Bool
  joins : List Nat
  fired : Nat
deriving DecidableEq, Repr

/-- The coordinator as constructed: no promises, not settled, no pending
joins, callback never invoked. -/
def initCoord : CoordState :=
  { promises := [], allSettled := false, joins := [], fired := 0 }

/-- `PromiseSettledCoordinator.addPromise`: throw (first component) when
`allSettled` already holds, leaving the state unchanged; otherwise push the
promise and start a `Promise.allSettled` join over the current list, whose
snapshot is the new length. -/
def PromiseSettledCoordinator.addPromise (s : CoordState) : Option String × CoordState :=
  if s.allSettled then
    (some "All promises have already been settled!", s)
  else
    (none, { s with promises := s.promises ++ [false],
                    joins := s.joins ++ [s.promises.length + 1] })

/-- An event in one coordinator history: a registration, the settlement of
promise `i`, or the `.then` continuation of the join with snapshot `snap`
running its length check. -/
inductive CoordEvent where
  | add
  | settle (i : Nat)
  | complete (snap : Nat)
deriving DecidableEq, Repr

/-- One scheduler step. `add` is only enabled below settlement (an enabled
throw is not part of a legal history); `settle i` settles a pending promise;
`complete snap` may run only once every promise the join snapshotted has
settled, and fires `finished` exactly when the snapshot still equals the
current list length. -/
def coordStep (s : CoordState) (e : CoordEvent) : Option CoordState :=
  match e with
  | .add =>
    match PromiseSettledCoordinator.addPromise s with
    | (some _, _) => none
    | (none, s2) => some s2
  | .settle i =>
    if s.promises.getD i true = false then
      some { s with promises := s.promises.set i true }
    else none
  | .complete snap =>
    if s.joins.contains snap && (s.promises.take snap).all id then
      if snap = s.promises.length then
        some { s with joins := s.joins.erase snap, allSettled := true, fired := s.fired + 1 }
      else
        some { s with joins := s.joins.erase snap }
    else none

/-- Run a history from a state; `none` when some event was not enabled. -/
def runCoord : CoordState → List CoordEvent → Option CoordState
  | s, [] => some s
  | s, e :: es =>
    match coordStep s e with
    | none => none
    | some s2 => runCoord s2 es

/-- Invariant of every reachable coordinator state: the callback ran at most
once and exactly when `allSettled` holds; join snapshots are bounded by the
list length and pairwise distinct; after settlement every promise has settled
and no leftover join could pass the length check; before settlement (and
after the first registration) the youngest join is still pending. -/
def CoordInv (s : CoordState) : Prop :=
  s.fired ≤ 1 ∧
  (s.allSettled = true ↔ s.fired = 1) ∧
  (∀ n ∈ s.joins, n ≤ s.promises.length) ∧
  s.joins.Nodup ∧
  (s.allSettled = true → s.promises.all id = true ∧ ∀ n ∈ s.joins, n ≠ s.promises.length) ∧
  (s.allSettled = false → s.promises = [] ∨ s.promises.length ∈ s.joins)

theorem all_id_getD {l : List Bool} (h : l.all id = true) (i : Nat) :
    l.getD i true = true := by
  rcases Nat.lt_or_ge i l.length with hi | hi
  · rw [List.getD_eq_getElem l true hi]
    exact List.all_eq_true.mp h _ (List.getElem_mem hi)
  · exact List.getD_eq_default l true hi

theorem coordInv_init : CoordInv initCoord := by
  refine ⟨by simp [initCoord], by simp [initCoord], ?_, ?_, ?_, ?_⟩
  · intro n hn
    exact absurd hn (List.not_mem_nil n)
  · exact List.nodup_nil
  · intro h
    exact absurd h (by simp [initCoord])
  · intro _
    left
    rfl

theorem coordStep_inv {s s' : CoordState} {e : CoordEvent}
    (hinv : CoordInv s) (hstep : coordStep s e = some s') : CoordInv s' := by
  obtain ⟨h1, h2, h3, h4, h5, h6⟩ := hinv
  cases e with
  | add =>
    unfold coordStep PromiseSettledCoordinator.addPromise at hstep
    by_cases hs : s.allSettled
    · rw [if_pos hs] at hstep
      exact absurd hstep (by simp)
    · rw [if_neg hs] at hstep
      have hstep2 : some ({ s with promises := s.promises ++ [false], joins := s.joins ++ [s.promises.length + 1] } : CoordState) = some s' := hstep
      obtain rfl := (Option.some.inj hstep2).symm
      have hfired : s.fired ≠ 1 := fun hf => hs (h2.mpr hf)
      refine ⟨h1, ?_, ?_, ?_, ?_, ?_⟩
      · simpa [hs] using fun hf => absurd hf hfired
      · intro n hn
        rcases List.mem_append.mp hn with hn | hn
        · have := h3 n hn
          simp only [List.length_append, List.length_singleton]
          omega
        · have : n = s.promises.length + 1 := by simpa using hn
          simp [this]
      · rw [List.nodup_append]
        refine ⟨h4, List.nodup_singleton _, ?_⟩
        intro n hn hn'
        have hle := h3 n hn
        have : n = s.promises.length + 1 := by simpa using hn'
        omega
      · intro habs
        exact absurd habs (by simp [hs])
      · intro _
        right
        simp
  | settle i =>
    simp only [coordStep] at hstep
    split at hstep
    next hcond =>
      have hstep2 : some ({ s with promises := s.promises.set i true } : CoordState) = some s' := hstep
      obtain rfl := (Option.some.inj hstep2).symm
      refine ⟨h1, h2, ?_, h4, ?_, ?_⟩
      · intro n hn
        simpa [List.length_set] using h3 n hn
      · intro hset
        exfalso
        have hall := (h5 hset).1
        have := all_id_getD hall i
        rw [hcond] at this
        exact absurd this (by simp)
      · intro hns
        rcases h6 hns with hempty | hmem
        · left
          rw [hempty]
          rfl
        · right
          simpa [List.length_set] using hmem
    next =>
      exact absurd hstep (by simp)
  | complete snap =>
    simp only [coordStep] at hstep
    split at hstep
    next hcond =>
      have hmem : snap ∈ s.joins := by
        have := (Bool.and_eq_true _ _).mp hcond
        simpa using this.1
      have htake : (s.promises.take snap).all id = true :=
        ((Bool.and_eq_true _ _).mp hcond).2
      split at hstep
      next hlen =>
        have hs : s.allSettled = false := by
          by_contra hcon
          have hs' : s.allSettled = true := by
            cases hx : s.allSettled
            · exact absurd hx hcon
            · rfl
          exact (h5 hs').2 snap hmem hlen
        have hstep2 : some ({ s with joins := s.joins.erase snap, allSettled := true, fired := s.fired + 1 } : CoordState) = some s' := hstep
        obtain rfl := (Option.some.inj hstep2).symm
        have hf0 : s.fired = 0 := by
          have : s.fired ≠ 1 := fun hf => by
            rw [h2.mpr hf] at hs
            exact absurd hs (by simp)
          omega
        refine ⟨by simp [hf0], by simp [hf0], ?_, h4.erase snap, ?_, ?_⟩
      
        · intro n hn
          exact h3 n (List.mem_of_mem_erase hn)
        · intro _
          constructor
          · have := htake
            rwa [hlen, List.take_length] at this
          · intro n hn
            have := (List.Nodup.mem_erase_iff h4).mp hn
            simpa [hlen] using this.1
        · intro habs
          exact absurd habs (by simp)
      next hlen =>
        have hstep2 : some ({ s with joins := s.joins.erase snap } : CoordState) = some s' := hstep
        obtain rfl := (Option.some.inj hstep2).symm
        refine ⟨h1, h2, ?_, h4.erase snap, ?_, ?_⟩
        · intro n hn
          exact h3 n (List.mem_of_mem_erase hn)
        · intro hset
          refine ⟨(h5 hset).1, ?_⟩
          intro n hn
          exact (h5 hset).2 n (List.mem_of_mem_erase hn)
        · intro hns
          rcases h6 hns with hempty | hmem2
          · left
            exact hempty
          · right
            exact (List.mem_erase_of_ne (fun hx => hlen hx.symm)).mpr hmem2
    next =>
      exact absurd hstep (by simp)

theorem runCoord_inv : ∀ (t : List CoordEvent) (s0 s : CoordState),
    CoordInv s0 → runCoord s0 t = some s → CoordInv s := by
  intro t
  induction t with
  | nil =>
    intro s0 s h hrun
    have : some s0 = some s := hrun
    obtain rfl := Option.some.inj this
    exact h
  | cons e rest ih =>
    intro s0 s h hrun
    unfold runCoord at hrun
    cases hstep : coordStep s0 e with
    | none => rw [hstep] at hrun; exact absurd hrun (by simp)
    | some s1 =>
      rw [hstep] at hrun
      exact ih s1 s (coordStep_inv h hstep) hrun

theorem toEvent_eq (s : Span) :
    s.toEvent = jsAssign (jsAssign [] s.data) (metaToObj s.eventMeta) := by
  cases s
  rfl

theorem jsLast_metaToObj_name (m : EventMeta) :
    jsLast (metaToObj m) "name" = some (.str m.name) := by
  cases hd : m.duration_ms <;> simp [metaToObj, jsLast, hd]

theorem jsLast_metaToObj_timestamp (m : EventMeta) :
    jsLast (metaToObj m) "timestamp" = some (.num m.timestamp) := by
  cases hd : m.duration_ms <;> simp [metaToObj, jsLast, hd]

theorem jsLast_metaToObj_trace (m : EventMeta) :
    jsLast (metaToObj m) "trace" = some m.trace := by
  cases hd : m.duration_ms <;> simp [metaToObj, jsLast, hd]

theorem jsLast_metaToObj_service_name (m : EventMeta) :
    jsLast (metaToObj m) "service_name" = some (.str m.service_name) := by
  cases hd : m.duration_ms <;> simp [metaToObj, jsLast, hd]

theorem jsLast_metaToObj_duration_of_some (m : EventMeta) (d : ℚ)
    (h : m.duration_ms = some d) :
    jsLast (metaToObj m) "duration_ms" = some (.num d) := by
  simp [metaToObj, jsLast, h]

theorem jsLast_metaToObj_none (m : EventMeta) {k : String}
    (h1 : ("timestamp" == k) = false) (h2 : ("name" == k) = false)
    (h3 : ("trace" == k) = false) (h4 : ("service_name" == k) = false)
    (h5 : ("duration_ms" == k) = false) :
    jsLast (metaToObj m) k = none := by
  cases hd : m.duration_ms <;> simp [metaToObj, jsLast, hd, h1, h2, h3, h4, h5]

theorem toEvent_meta_key (s : Span) (k : String) (v : JsVal)
    (hmeta : jsLast (metaToObj s.eventMeta) k = some v) :
    jsAccess s.toEvent k = v := by
  rw [toEvent_eq]
  exact jsAccess_assign_of_last hmeta

theorem toEvent_data_key (s : Span) (k : String) (v : JsVal)
    (hmeta : jsLast (metaToObj s.eventMeta) k = none)
    (hdata : jsLast s.data k = some v) :
    jsAccess s.toEvent k = v := by
  rw [toEvent_eq]
  rw [jsAccess_assign_of_none hmeta]
  exact jsAccess_assign_of_last hdata

theorem toEvent_name (s : Span) : jsAccess s.toEvent "name" = .str s.eventMeta.name :=
  toEvent_meta_key s _ _ (jsLast_metaToObj_name s.eventMeta)

theorem toEvent_timestamp (s : Span) :
    jsAccess s.toEvent "timestamp" = .num s.eventMeta.timestamp :=
  toEvent_meta_key s _ _ (jsLast_metaToObj_timestamp s.eventMeta)

theorem toEvent_trace (s : Span) : jsAccess s.toEvent "trace" = s.eventMeta.trace :=
  toEvent_meta_key s _ _ (jsLast_metaToObj_trace s.eventMeta)

theorem toEvent_service_name (s : Span) :
    jsAccess s.toEvent "service_name" = .str s.eventMeta.service_name :=
  toEvent_meta_key s _ _ (jsLast_metaToObj_service_name s.eventMeta)

mutual

theorem parseToEvents_names : ∀ s : Span,
    (Span.parseToEvents s).map (fun ev => jsAccess ev "name") =
      (preorderNamesSpec s).map JsVal.str
  | .mk c d cs m => by
    rw [show Span.parseToEvents (.mk c d cs m) =
      Span.toEvent (.mk c d cs m) :: parseChildEvents cs from rfl]
    rw [show preorderNamesSpec (.mk c d cs m) = m.name :: preorderNamesListSpec cs from rfl]
    rw [List.map_cons, List.map_cons, toEvent_name, parseChildEvents_names cs]
    rfl

theorem parseChildEvents_names : ∀ l : List Span,
    (parseChildEvents l).map (fun ev => jsAccess ev "name") =
      (preorderNamesListSpec l).map JsVal.str
  | [] => rfl
  | c :: rest => by
    rw [show parseChildEvents (c :: rest) =
      Span.parseToEvents c ++ parseChildEvents rest from rfl]
    rw [show preorderNamesListSpec (c :: rest) =
      preorderNamesSpec c ++ preorderNamesListSpec rest from rfl]
    rw [List.map_append, List.map_append, parseToEvents_names c, parseChildEvents_names rest]

end

theorem filterEvents_nil_excludes (events : List JsObj) :
    filterEvents events (some []) = events := by
  unfold filterEvents
  rw [List.filter_eq_self]
  intro ev _
  cases hx : jsAccess ev "name" <;> simp

theorem mem_filterEvents_name_ne (events : List JsObj) (ex : List String) (ev : JsObj)
    (h : ev ∈ filterEvents events (some ex)) (n : String) (hn : n ∈ ex) :
    jsAccess ev "name" ≠ .str n := by
  unfold filterEvents at h
  have hp := (List.mem_filter.mp h).2
  intro hname
  rw [hname] at hp
  have hp2 : (!(ex.contains n)) = true := hp
  have hc : ex.contains n = true := List.elem_iff.mpr hn
  rw [hc] at hp2
  exact absurd hp2 (by simp)

/-- C1 (corrected): in every legal coordinator history (registrations only
before settlement, interleaved arbitrarily with settlements and join
continuations), the completion callback has been invoked at most once; from
the moment it is invoked every registered task has settled (so it never fires
while a task is pending); and in every completed history (all joins drained)
with at least one registration it has been invoked exactly once. The original
claim fails only for the empty registration sequence, where the callback
never fires (see the counterexample). -/
theorem C1_coordinator_exactly_once_amended (t : List CoordEvent) (s : CoordState)
    (h : runCoord initCoord t = some s) :
    s.fired ≤ 1 ∧
    (s.allSettled = true → s.promises.all id = true) ∧
    (s.joins = [] → s.promises ≠ [] → s.fired = 1) := by
  have hinv := runCoord_inv t initCoord s coordInv_init h
  obtain ⟨h1, h2, h3, h4, h5, h6⟩ := hinv
  refine ⟨h1, fun hs => (h5 hs).1, ?_⟩
  intro hj hp
  cases hx : s.allSettled with
  | false =>
    rcases h6 hx with he | hm
    · exact absurd he hp
    · rw [hj] at hm
      exact absurd hm (List.not_mem_nil _)
  | true => exact h2.mp hx

/-- Witness for C1: the history add, settle 0, join continuation with
snapshot 1 reaches the state with one settled promise, no pending join, and
exactly one callback invocation. -/
theorem C1_coordinator_exactly_once_amended_witness :
    (CoordState.mk [true] true [] 1).fired ≤ 1 ∧
    ((CoordState.mk [true] true [] 1).allSettled = true →
      (CoordState.mk [true] true [] 1).promises.all id = true) ∧
    ((CoordState.mk [true] true [] 1).joins = [] →
      (CoordState.mk [true] true [] 1).promises ≠ [] →
      (CoordState.mk [true] true [] 1).fired = 1) :=
  C1_coordinator_exactly_once_amended [.add, .settle 0, .complete 1]
    (CoordState.mk [true] true [] 1) (by decide)

/-- Counterexample for C1 as stated: the empty registration sequence is a
legal, completed history (no promise pending, no join pending) in which the
completion callback was invoked zero times, not exactly once. -/
theorem C1_empty_history_counterexample :
    runCoord initCoord [] = some initCoord ∧ initCoord.joins = [] ∧
    initCoord.promises = [] ∧ initCoord.fired = 0 := by
  refine ⟨rfl, rfl, rfl, rfl⟩

/-- C4: calling addPromise on a coordinator that has already settled throws
the contract-violation error synchronously and returns with the state (the
tracked-promise list, the joins, the settled flag, the invocation count)
unchanged. -/
theorem C4_addPromise_after_settled_throws (s : CoordState) (h : s.allSettled = true) :
    PromiseSettledCoordinator.addPromise s =
      (some "All promises have already been settled!", s) := by
  unfold PromiseSettledCoordinator.addPromise
  rw [if_pos h]

/-- Witness for C4 at the settled state reached in the C1 witness history. -/
theorem C4_addPromise_after_settled_throws_witness :
    PromiseSettledCoordinator.addPromise (CoordState.mk [true] true [] 1) =
      (some "All promises have already been settled!", CoordState.mk [true] true [] 1) :=
  C4_addPromise_after_settled_throws (CoordState.mk [true] true [] 1) rfl

/-- C2 (code bug): with a table `sampleRates`, no override, and no captured
response, `getSampleRate` throws a TypeError instead of returning the
table's "exception" entry, because the guard `!data.response &&
!data.response.status` evaluates `data.response.status` exactly when
`data.response` is undefined (the intended guard is the disjunction). The
with-response path behaves as the claim says: the entry keyed by the leading
status digit plus "xx", falling back to 1 when that entry is absent. -/
theorem C2_getSampleRate_no_response_throws :
    getSampleRate none (SampleRates.table [("exception", some 2)]) { response := none } =
      .error "TypeError: cannot read status of undefined" ∧
    getSampleRate none (SampleRates.table [("exception", some 2), ("5xx", some 5)])
      { response := some { status := 503 } } = .ok (some 5) ∧
    getSampleRate none (SampleRates.table [("exception", some 2)])
      { response := some { status := 200 } } = .ok (some 1) := by
  refine ⟨rfl, rfl, rfl⟩

/-- C3: with effective sample rate exactly 1 the batch send is always
attempted (for every uniform draw in [0,1)); with rate undefined or any rate
strictly below 1 (0 included) it is never attempted. -/
theorem C3_sampling_boundary (events : List JsObj) (excludeSpans : Option (List String)) :
    (∀ rand : ℚ, 0 ≤ rand → rand < 1 →
      sendEventsResult events (some 1) rand excludeSpans =
        some (filterEvents events excludeSpans)) ∧
    (∀ (rand s : ℚ), s < 1 →
      sendEventsResult events (some s) rand excludeSpans = none) ∧
    (∀ rand : ℚ, sendEventsResult events none rand excludeSpans = none) := by
  refine ⟨?_, ?_, ?_⟩
  · intro rand h0 h1
    have hc : sendCondition (some 1) rand = true := by
      unfold sendCondition
      rw [Bool.and_eq_true, decide_eq_true_iff, decide_eq_true_iff]
      constructor
      · norm_num
      · rw [one_div_one]
        exact h1
    unfold sendEventsResult
    rw [hc]
    simp
  · intro rand s hs
    have hc : sendCondition (some s) rand = false := by
      unfold sendCondition
      rw [Bool.and_eq_false_iff]
      left
      rw [decide_eq_false_iff_not]
      exact not_le.mpr hs
    unfold sendEventsResult
    rw [hc]
    simp
  · intro rand
    rfl

/-- Witness for C3 at an empty batch, no excludes, draw one half: rate 1
sends, rate 0 does not, an undefined rate does not. -/
theorem C3_sampling_boundary_witness :
    sendEventsResult [] (some 1) (1/2) none = some (filterEvents [] none) ∧
    sendEventsResult [] (some 0) (1/2) none = none ∧
    sendEventsResult [] none (1/2) none = none :=
  ⟨(C3_sampling_boundary [] none).1 (1/2) (by norm_num) (by norm_num),
   (C3_sampling_boundary [] none).2.1 (1/2) 0 (by norm_num),
   (C3_sampling_boundary [] none).2.2 (1/2)⟩

/-- The resolved default configuration, used by the concrete examples. -/
def defaultTracerConfig : TracerConfig := resolve {}

/-- C5: for every header mapping and every redact list produced by
configuration resolution, converting twice equals converting once; every key
of the output is lower-cased; every output entry whose key is in the redact
list holds the marker REDACTED; and every input header reaches the output
under its lower-cased name (so matching is insensitive to the input case). -/
theorem C5_redaction_idempotent_case_insensitive (hdrs : List (String × String))
    (cfg : UserConfig) :
    convertHeaders (convertHeaders hdrs (resolve cfg).redactRequestHeaders)
        (resolve cfg).redactRequestHeaders =
      convertHeaders hdrs (resolve cfg).redactRequestHeaders ∧
    (∀ p ∈ convertHeaders hdrs (resolve cfg).redactRequestHeaders,
      jsLowerString p.1 = p.1) ∧
    (∀ p ∈ convertHeaders hdrs (resolve cfg).redactRequestHeaders,
      (resolve cfg).redactRequestHeaders.contains p.1 = true → p.2 = "REDACTED") ∧
    (∀ p ∈ hdrs, jsLowerString p.1 ∈
      (convertHeaders hdrs (resolve cfg).redactRequestHeaders).map Prod.fst) := by
  obtain ⟨hvals, hnd⟩ := headersCanon_convertHeaders hdrs (resolve cfg).redactRequestHeaders
  exact ⟨convertHeaders_idem _ _, fun p hp => (hvals p hp).1,
    fun p hp => (hvals p hp).2, convertHeaders_covers _ _⟩

def c5Hdrs : List (String × String) := [("Authorization", "Bearer xyz")]

def c5Cfg : UserConfig := { redactRequestHeaders := some ["Authorization"] }

/-- Witness for C5: a mixed-case Authorization header against the resolved
redact list built from a mixed-case entry is redacted under the lower-cased
key, and conversion is idempotent there. -/
theorem C5_redaction_witness :
    convertHeaders (convertHeaders c5Hdrs (resolve c5Cfg).redactRequestHeaders)
        (resolve c5Cfg).redactRequestHeaders =
      convertHeaders c5Hdrs (resolve c5Cfg).redactRequestHeaders ∧
    ("authorization", "REDACTED").2 = "REDACTED" ∧
    jsLowerString ("Authorization", "Bearer xyz").1 ∈
      (convertHeaders c5Hdrs (resolve c5Cfg).redactRequestHeaders).map Prod.fst :=
  ⟨(C5_redaction_idempotent_case_insensitive c5Hdrs c5Cfg).1,
   (C5_redaction_idempotent_case_insensitive c5Hdrs c5Cfg).2.2.1
     ("authorization", "REDACTED") (by decide) (by decide),
   (C5_redaction_idempotent_case_insensitive c5Hdrs c5Cfg).2.2.2
     ("Authorization", "Bearer xyz") (by decide)⟩

/-- C6: with the waitUntil extension point never used, the emitted event list
(the flattened events filtered by the wrapper excludes) contains no event
named waitUntil; with it used, the filter drops nothing, so the waitUntil
event (present whenever the span tree carries the bookkeeping span the
wrapper pre-creates) is retained. -/
theorem C6_waitUntil_event_excluded_iff_used (root : Span) :
    (∀ ev ∈ filterEvents (Span.parseToEvents root) (some (sendEventsExcludes false)),
      jsAccess ev "name" ≠ .str "waitUntil") ∧
    filterEvents (Span.parseToEvents root) (some (sendEventsExcludes true)) =
      Span.parseToEvents root ∧
    ("waitUntil" ∈ preorderNamesSpec root →
      JsVal.str "waitUntil" ∈
        (filterEvents (Span.parseToEvents root)
          (some (sendEventsExcludes true))).map (fun ev => jsAccess ev "name")) := by
  refine ⟨?_, ?_, ?_⟩
  · intro ev hev
    exact mem_filterEvents_name_ne _ _ _ hev "waitUntil" (by simp [sendEventsExcludes])
  · exact filterEvents_nil_excludes _
  · intro hmem
    rw [show sendEventsExcludes true = [] from rfl, filterEvents_nil_excludes,
      parseToEvents_names root]
    exact List.mem_map_of_mem _ hmem

/-- The tracer root and the waitUntil child span exactly as the TraceWrapper
constructor builds them. -/
def c6Wrapper : Span × Span :=
  Span.startChildSpan
    (Span.new { name := "request", service_name := "worker" } defaultTracerConfig 0)
    "waitUntil" (some "worker") 0

/-- Witness for C6 on the wrapper-built tree with the background path used:
nothing is filtered and the waitUntil event appears in the emitted list. -/
theorem C6_waitUntil_witness :
    filterEvents (Span.parseToEvents c6Wrapper.1) (some (sendEventsExcludes true)) =
      Span.parseToEvents c6Wrapper.1 ∧
    JsVal.str "waitUntil" ∈
      (filterEvents (Span.parseToEvents c6Wrapper.1)
        (some (sendEventsExcludes true))).map (fun ev => jsAccess ev "name") :=
  ⟨(C6_waitUntil_event_excluded_iff_used c6Wrapper.1).2.1,
   (C6_waitUntil_event_excluded_iff_used c6Wrapper.1).2.2 (by decide)⟩

/-- C7: when the user handler throws synchronously, the wrapper catch
finishes the root span with the error: the root event carries the exception
flag, the error name, message and stack, the span is finished (duration
recorded) with the error instead of a response, and the runner-trace
exception branch yields error_code 2 with an exception record whose message
is the thrown message. The wrapper itself is total, so nothing escapes to
the host. -/
theorem C7_handler_throw_captured (s : Span) (err : JsError) (now : ℚ) :
    jsAccess (Span.toEvent (setUpRespondWith s (.error err) now)) "exception" =
      .boolean true ∧
    jsAccess (Span.toEvent (setUpRespondWith s (.error err) now)) "error_name" =
      .str err.name ∧
    jsAccess (Span.toEvent (setUpRespondWith s (.error err) now)) "message" =
      .str err.message ∧
    jsAccess (Span.toEvent (setUpRespondWith s (.error err) now)) "stack" = err.stack ∧
    (setUpRespondWith s (.error err) now).eventMeta.duration_ms =
      some (now - s.eventMeta.timestamp) ∧
    (runnerTraceException (Span.toEvent (setUpRespondWith s (.error err) now))).2 = 2 ∧
    jsAccess (runnerTraceException (Span.toEvent (setUpRespondWith s (.error err) now))).1
      "message" = .str err.message := by
  have hdata : (setUpRespondWith s (.error err) now).data =
      jsAssign s.data [("exception", .boolean true), ("error_name", .str err.name),
        ("stack", err.stack), ("message", .str err.message),
        ("responseException", .str (jsErrorToString err))] := by
    cases s
    rfl
  have hdur : (setUpRespondWith s (.error err) now).eventMeta.duration_ms =
      some (now - s.eventMeta.timestamp) := by
    cases s
    rfl
  have h1 : jsAccess (Span.toEvent (setUpRespondWith s (.error err) now)) "exception" =
      .boolean true :=
    toEvent_data_key _ _ _ (jsLast_metaToObj_none _ rfl rfl rfl rfl rfl)
      (by rw [hdata]; exact jsLast_assign_of_some _ rfl)
  have h2 : jsAccess (Span.toEvent (setUpRespondWith s (.error err) now)) "error_name" =
      .str err.name :=
    toEvent_data_key _ _ _ (jsLast_metaToObj_none _ rfl rfl rfl rfl rfl)
      (by rw [hdata]; exact jsLast_assign_of_some _ rfl)
  have h3 : jsAccess (Span.toEvent (setUpRespondWith s (.error err) now)) "message" =
      .str err.message :=
    toEvent_data_key _ _ _ (jsLast_metaToObj_none _ rfl rfl rfl rfl rfl)
      (by rw [hdata]; exact jsLast_assign_of_some _ rfl)
  have h4 : jsAccess (Span.toEvent (setUpRespondWith s (.error err) now)) "stack" =
      err.stack :=
    toEvent_data_key _ _ _ (jsLast_metaToObj_none _ rfl rfl rfl rfl rfl)
      (by rw [hdata]; exact jsLast_assign_of_some _ rfl)
  have hrun : runnerTraceException (Span.toEvent (setUpRespondWith s (.error err) now)) =
      ([("type", jsAccess (Span.toEvent (setUpRespondWith s (.error err) now)) "error_name"),
        ("tracebook", jsAccess (Span.toEvent (setUpRespondWith s (.error err) now)) "stack"),
        ("additional_data", .obj [("warning", .boolean false), ("handled", .boolean false)]),
        ("message", jsAccess (Span.toEvent (setUpRespondWith s (.error err) now)) "message")],
       2) := by
    unfold runnerTraceException
    rw [h1]
    rfl
  refine ⟨h1, h2, h3, h4, hdur, ?_, ?_⟩
  · rw [hrun]
  · rw [hrun, ← h3]
    generalize jsAccess (Span.toEvent (setUpRespondWith s (.error err) now)) "message" = W
    generalize jsAccess (Span.toEvent (setUpRespondWith s (.error err) now)) "error_name" = T
    generalize jsAccess (Span.toEvent (setUpRespondWith s (.error err) now)) "stack" = B
    rfl

def c8A1 : Span := Span.new { name := "A1", service_name := "worker" } defaultTracerConfig 0

def c8A : Span := Span.mk defaultTracerConfig [] [c8A1]
  { timestamp := 0, name := "A", trace := .undef, service_name := "worker", duration_ms := none }

def c8B : Span := Span.new { name := "B", service_name := "worker" } defaultTracerConfig 0

def c8Root : Span := Span.mk defaultTracerConfig [] [c8A, c8B]
  { timestamp := 0, name := "root", trace := .undef, service_name := "worker", duration_ms := none }

/-- C8: flattening produces one event per span in pre-order: the name
sequence of the flattened events equals the pre-order name listing of the
tree (own event first, children in insertion order); in particular a root
with children A (with child A1) and B flattens to root, A, A1, B. -/
theorem C8_parseToEvents_preorder :
    (∀ s : Span, (Span.parseToEvents s).map (fun ev => jsAccess ev "name") =
      (preorderNamesSpec s).map JsVal.str) ∧
    (Span.parseToEvents c8Root).map (fun ev => jsAccess ev "name") =
      [.str "root", .str "A", .str "A1", .str "B"] := by
  refine ⟨parseToEvents_names, ?_⟩
  rw [parseToEvents_names]
  rfl

/-- A span whose trace context is set, to exercise startChildSpan. -/
def c9Parent : Span := Span.mk defaultTracerConfig [] []
  { timestamp := 0, name := "request", trace := .str "trace-1", service_name := "worker",
    duration_ms := none }

/-- C9 (code bug): startChildSpan does create, append and return a child
whose serviceName defaults to the parent's, but the child's trace context is
undefined rather than the parent's: the source computes the parent trace
context into a local and never passes it to the Span constructor. -/
theorem C9_startChildSpan_trace_not_propagated :
    (Span.startChildSpan c9Parent "child" none 5).1.childSpans =
      c9Parent.childSpans ++ [(Span.startChildSpan c9Parent "child" none 5).2] ∧
    (Span.startChildSpan c9Parent "child" none 5).2.eventMeta.name = "child" ∧
    (Span.startChildSpan c9Parent "child" none 5).2.eventMeta.service_name =
      c9Parent.eventMeta.service_name ∧
    c9Parent.eventMeta.trace = .str "trace-1" ∧
    (Span.startChildSpan c9Parent "child" none 5).2.eventMeta.trace = .undef := by
  exact ⟨rfl, rfl, rfl, rfl, rfl⟩

/-- C10 (amended): in the event built for a span, the metadata fields name,
timestamp, trace and service_name always come from eventMeta and override
any same-named data keys, because the metadata is assigned after the data;
duration_ms does so whenever the span has been finished (only then does the
metadata carry the key). The event is the head of the span's flattened
events. The original claim also covered duration_ms on unfinished spans,
where a data-written duration_ms survives (see the counterexample). -/
theorem C10_meta_overrides_data_amended (s : Span) :
    jsAccess s.toEvent "name" = .str s.eventMeta.name ∧
    jsAccess s.toEvent "timestamp" = .num s.eventMeta.timestamp ∧
    jsAccess s.toEvent "trace" = s.eventMeta.trace ∧
    jsAccess s.toEvent "service_name" = .str s.eventMeta.service_name ∧
    (∀ d : ℚ, s.eventMeta.duration_ms = some d →
      jsAccess s.toEvent "duration_ms" = .num d) ∧
    (Span.parseToEvents s).head? = some s.toEvent := by
  refine ⟨toEvent_name s, toEvent_timestamp s, toEvent_trace s, toEvent_service_name s,
    ?_, ?_⟩
  · intro d hd
    exact toEvent_meta_key s _ _ (jsLast_metaToObj_duration_of_some s.eventMeta d hd)
  · cases s
    rfl

/-- A finished span whose data tries to spoof the name and the duration. -/
def c10Finished : Span :=
  ((Span.new { name := "request", service_name := "worker" } defaultTracerConfig 1).addData
    [("name", .str "spoof"), ("duration_ms", .num 99)]).finish 3

/-- Witness for C10 on a finished span with colliding data keys: the event
name is the metadata name and the duration is the measured one, not the
data-written values. -/
theorem C10_meta_overrides_data_amended_witness :
    jsAccess c10Finished.toEvent "name" = .str "request" ∧
    jsAccess c10Finished.toEvent "duration_ms" = .num 2 :=
  ⟨(C10_meta_overrides_data_amended c10Finished).1,
   (C10_meta_overrides_data_amended c10Finished).2.2.2.2.1 2
     (by show (some ((3 : ℚ) - 1) : Option ℚ) = some 2; norm_num)⟩

/-- An unfinished span that wrote duration_ms through addData. -/
def c10Unfinished : Span :=
  (Span.new { name := "request", service_name := "worker" } defaultTracerConfig 0).addData
    [("duration_ms", .num 999)]

/-- Counterexample for C10 as stated: on a span that was never finished, the
metadata has no duration_ms key, so the data-written duration_ms survives
into the flattened event; addData can therefore change the reported timing
of an unfinished span. -/
theorem C10_unfinished_duration_counterexample :
    c10Unfinished.eventMeta.duration_ms = none ∧
    jsAccess c10Unfinished.toEvent "duration_ms" = .num 999 :=
  ⟨rfl, rfl⟩
